import Mathlib

/-!
Verification of the coriolis data-slicing / statistics / visualization engine.

Shallow embedding of the Rust sources:
  * `src/data/variable_data.rs`  (LoadedVariable, projections, statistics)
  * `src/data_viewer/mod.rs`     (view-mode and slicing state machine)
  * `src/util/colormaps.rs`      (color palettes)
  * `src/data_viewer/ui.rs`      (heatmap rasterizer scale, lines 843-866)

Rust `f64` is modelled by the type `F64` below: a rational value or one of
the IEEE special values NaN / +inf / -inf.  The model keeps the IEEE
branching structure (NaN propagation, comparisons false on NaN) but uses
exact rational arithmetic for finite values (no rounding, no overflow);
every claim proved here depends only on structure that is identical in the
two arithmetics.  Where a computation is exact in binary floating point at
the inputs used (small integers, halves and quarters) the model coincides
with the Rust semantics exactly.
-/

/-- Model of Rust `f64`: a finite rational or an IEEE special value. -/
inductive F64 where
  | fin : ℚ → F64
  | nan : F64
  | inf : F64
  | ninf : F64
deriving DecidableEq

namespace F64

/-- `f64::is_finite`. -/
def isFinite : F64 → Bool
  | fin _ => true
  | _ => false

/-- IEEE addition (finite part exact). -/
def add : F64 → F64 → F64
  | nan, _ => nan
  | _, nan => nan
  | inf, ninf => nan
  | ninf, inf => nan
  | inf, _ => inf
  | _, inf => inf
  | ninf, _ => ninf
  | _, ninf => ninf
  | fin a, fin b => fin (a + b)

/-- IEEE negation. -/
def neg : F64 → F64
  | fin a => fin (-a)
  | nan => nan
  | inf => ninf
  | ninf => inf

/-- IEEE subtraction. -/
def sub (a b : F64) : F64 := add a (neg b)

/-- IEEE multiplication (finite part exact). -/
def mul : F64 → F64 → F64
  | fin a, fin b => fin (a * b)
  | nan, _ => nan
  | _, nan => nan
  | inf, inf => inf
  | inf, ninf => ninf
  | ninf, inf => ninf
  | ninf, ninf => inf
  | inf, fin b => if 0 < b then inf else if b < 0 then ninf else nan
  | fin a, inf => if 0 < a then inf else if a < 0 then ninf else nan
  | ninf, fin b => if 0 < b then ninf else if b < 0 then inf else nan
  | fin a, ninf => if 0 < a then ninf else if a < 0 then inf else nan

/-- IEEE division (finite part exact; x/0 gives a signed infinity or NaN). -/
def div : F64 → F64 → F64
  | nan, _ => nan
  | _, nan => nan
  | inf, inf => nan
  | inf, ninf => nan
  | ninf, inf => nan
  | ninf, ninf => nan
  | inf, fin b => if 0 ≤ b then inf else ninf
  | ninf, fin b => if 0 ≤ b then ninf else inf
  | fin _, inf => fin 0
  | fin _, ninf => fin 0
  | fin a, fin b =>
      if b = 0 then (if a = 0 then nan else if 0 < a then inf else ninf)
      else fin (a / b)

/-- IEEE `<`: always false when either side is NaN. -/
def lt : F64 → F64 → Bool
  | nan, _ => false
  | _, nan => false
  | fin a, fin b => decide (a < b)
  | fin _, inf => true
  | fin _, ninf => false
  | inf, inf => false
  | inf, fin _ => false
  | inf, ninf => false
  | ninf, ninf => false
  | ninf, fin _ => true
  | ninf, inf => true

/-- `f64::sqrt`, modelled with `Rat.sqrt` on the finite part (`Rat.sqrt`
is a rounded square root, as IEEE sqrt is; none of the claims depend on
the rounding). -/
def sqrt : F64 → F64
  | fin a => if a < 0 then nan else fin (Rat.sqrt a)
  | nan => nan
  | inf => inf
  | ninf => nan

/-- Conversion of a Rust `usize` to `f64` (`count as f64`). -/
def ofNat (n : ℕ) : F64 := fin n

end F64

/-!
## Row-major N-dimensional array model (`ndarray::ArrayD<f64>`)

`data` is the flat row-major element list; `shape` the per-dimension
extents.  `ArrayD::get(IxDyn(idx))` succeeds exactly when `idx` has one
entry per dimension and every entry is within its extent.
-/

/-- Row-major flat offset of a multi-index: strides are suffix products of
the shape (`ndarray` row-major layout). -/
def flatIndex : List ℕ → List ℕ → ℕ
  | _ :: ss, i :: is => i * ss.prod + flatIndex ss is
  | _, _ => 0

/-- Bounds check of `ArrayD::get`: one index per dimension, each within
its extent. -/
def idxInBounds : List ℕ → List ℕ → Bool
  | [], [] => true
  | s :: ss, i :: is => decide (i < s) && idxInBounds ss is
  | _, _ => false

/-- `ArrayD::get(IxDyn(idx))`: `some` element iff the index is in bounds. -/
def ndGet (shape : List ℕ) (data : List F64) (idx : List ℕ) : Option F64 :=
  if idxInBounds shape idx then data.get? (flatIndex shape idx) else none

/-!
## `LoadedVariable` (src/data/variable_data.rs)

Only the fields the verified operations read are carried (name, path,
attributes, dtype and the coordinate list are opaque strings/metadata
untouched by the slicing and statistics logic).  In the Rust struct the
`shape` field is documented as redundant with `data.shape()`; the model
keeps the single `shape` list serving both roles, and `ndim` counts its
entries as `ArrayD::ndim` does.
-/

structure LoadedVariable where
  /-- Per-dimension extents (the Rust `shape` field = `data.shape()`). -/
  shape : List ℕ
  /-- Flat row-major raw (unscaled) element buffer of `data`. -/
  data : List F64
  /-- CF scale factor (default 1.0). -/
  scale_factor : F64
  /-- CF add offset (default 0.0). -/
  add_offset : F64
deriving DecidableEq

namespace LoadedVariable

/-- `LoadedVariable::ndim`. -/
def ndim (v : LoadedVariable) : ℕ := v.shape.length

/-- `LoadedVariable::scale_value`: `raw * scale_factor + add_offset`. -/
def scale_value (v : LoadedVariable) (raw : F64) : F64 :=
  F64.add (F64.mul raw v.scale_factor) v.add_offset

/-- `LoadedVariable::get_1d_slice`.  The Rust loop reuses one index vector,
writing only position `dim` each iteration, so at step `i` the lookup index
is `fixed_indices` with position `dim` set to `i`; a successful lookup
pushes the (optionally scaled) value, a failed one pushes nothing. -/
def get_1d_slice (v : LoadedVariable) (dim : ℕ) (fixed_indices : List ℕ)
    (apply_scale : Bool) : List F64 :=
  (List.range (v.shape.getD dim 0)).filterMap fun i =>
    (ndGet v.shape v.data (fixed_indices.set dim i)).map fun raw =>
      if apply_scale then v.scale_value raw else raw

/-- `LoadedVariable::get_2d_slice`.  The Rust loop writes positions `dim_y`
(outer) and `dim_x` (inner) of one reused index vector, so the lookup index
for entry `(y, x)` is `fixed_indices` with `dim_y := y` and `dim_x := x`;
a failed lookup pushes `f64::NAN`. -/
def get_2d_slice (v : LoadedVariable) (dim_y dim_x : ℕ) (fixed_indices : List ℕ)
    (apply_scale : Bool) : List (List F64) :=
  (List.range (v.shape.getD dim_y 0)).map fun y =>
    (List.range (v.shape.getD dim_x 0)).map fun x =>
      match ndGet v.shape v.data ((fixed_indices.set dim_y y).set dim_x x) with
      | some raw => if apply_scale then v.scale_value raw else raw
      | none => F64.nan

end LoadedVariable

/-!
## Single-pass statistics (src/data/variable_data.rs, `read_variable`
lines 336-371)

`read_variable` folds Welford's algorithm over the raw buffer, scaling
each element before testing finiteness; the fold is embedded as
`statsStep`/`computeStats` over the same element list.
-/

/-- The loop accumulator of the statistics pass (`min`, `max`, `count`,
`mean_accum`, `m2` of the Rust loop). -/
structure StatsAcc where
  min : F64
  max : F64
  count : ℕ
  mean_accum : F64
  m2 : F64
deriving DecidableEq

/-- One iteration of the statistics loop: scale the element, skip it when
the scaled value is not finite, otherwise update min/max and the Welford
mean/second-moment accumulators. -/
def statsStep (scale_factor add_offset : F64) (acc : StatsAcc) (raw : F64) : StatsAcc :=
  let v := F64.add (F64.mul raw scale_factor) add_offset
  if v.isFinite then
    let count := acc.count + 1
    let newMin := if F64.lt v acc.min then v else acc.min
    let newMax := if F64.lt acc.max v then v else acc.max
    let delta := F64.sub v acc.mean_accum
    let mean_accum := F64.add acc.mean_accum (F64.div delta (F64.ofNat count))
    let delta2 := F64.sub v mean_accum
    let m2 := F64.add acc.m2 (F64.mul delta delta2)
    ⟨newMin, newMax, count, mean_accum, m2⟩
  else acc

/-- The statistics fields of `LoadedVariable` produced by `read_variable`. -/
structure VariableStats where
  min_max : Option (F64 × F64)
  mean : Option F64
  std : Option F64
  valid_count : ℕ
deriving DecidableEq

/-- The statistics pass of `read_variable`: fold `statsStep` from the
initial accumulator (`min = ∞`, `max = -∞`, zero count and moments), then
derive the optional fields exactly as lines 364-371 do. -/
def computeStats (data : List F64) (scale_factor add_offset : F64) : VariableStats :=
  let acc := data.foldl (statsStep scale_factor add_offset)
    ⟨F64.inf, F64.ninf, 0, F64.fin 0, F64.fin 0⟩
  { min_max := if 0 < acc.count then some (acc.min, acc.max) else none
    mean := if 0 < acc.count then some acc.mean_accum else none
    std :=
      if 1 < acc.count then
        some (F64.sqrt (F64.div acc.m2 (F64.ofNat (acc.count - 1))))
      else none
    valid_count := acc.count }

/-!
## View-mode and slicing state machine (src/data_viewer/mod.rs)

`DataViewerState` carries only the fields the verified mutators read or
write (`variable`, `view_mode`, `slicing`, the heatmap crosshair and the
scale toggle); the purely presentational fields (`color_palette`,
`scroll`, `visible`, `error`, `status_message`, `plot_cursor`) are
untouched by the operations below and are omitted.  The Rust field
`variable` is called `var` here because `variable` is reserved in Lean.
-/

/-- `ViewMode`. -/
inductive ViewMode where
  | Table
  | Plot1D
  | Heatmap
deriving DecidableEq

/-- `ViewMode::next`: Table → Plot1D → Heatmap → Table. -/
def ViewMode.next : ViewMode → ViewMode
  | .Table => .Plot1D
  | .Plot1D => .Heatmap
  | .Heatmap => .Table

/-- `SlicingState`. -/
structure SlicingState where
  slice_indices : List ℕ
  display_dims : ℕ × ℕ
  active_dim_selector : Option ℕ
deriving DecidableEq

namespace SlicingState

/-- `SlicingState::first_slice_dim`: first dimension not currently
displayed (`find` over `0..ndim`). -/
def first_slice_dim (s : SlicingState) (ndim : ℕ) (is_1d : Bool) : Option ℕ :=
  (List.range ndim).find? fun i =>
    if is_1d then i != s.display_dims.1
    else i != s.display_dims.1 && i != s.display_dims.2

/-- `SlicingState::update_active_selector`: keep a still-valid selector,
otherwise fall back to the first non-displayed dimension. -/
def update_active_selector (s : SlicingState) (ndim : ℕ) (view_mode : ViewMode) :
    SlicingState :=
  let is_1d := view_mode == ViewMode.Plot1D
  let keep :=
    match s.active_dim_selector with
    | some active =>
        if is_1d then decide (active < ndim) && active != s.display_dims.1
        else decide (active < ndim) && active != s.display_dims.1 &&
          active != s.display_dims.2
    | none => false
  if keep then s
  else { s with active_dim_selector := s.first_slice_dim ndim is_1d }

/-- `SlicingState::new`: zero slice indices, last two dimensions as the
display pair, selector seeded by `update_active_selector`. -/
def new (ndim : ℕ) (view_mode : ViewMode) : SlicingState :=
  let state : SlicingState :=
    { slice_indices := List.replicate ndim 0
      display_dims := if 2 ≤ ndim then (ndim - 2, ndim - 1) else (0, 0)
      active_dim_selector := none }
  state.update_active_selector ndim view_mode

end SlicingState

/-- `DataViewerState` (the fields read or written by the verified
mutators). -/
structure DataViewerState where
  var : Option LoadedVariable
  view_mode : ViewMode
  slicing : SlicingState
  heat_cursor_row : ℕ
  heat_cursor_col : ℕ
  apply_scale_offset : Bool
deriving DecidableEq

namespace DataViewerState

/-- `DataViewerState::new` (restricted to the carried fields; the Rust
defaults are `variable = None`, `view_mode = Table`, default slicing
state, zero cursors, `apply_scale_offset = true`). -/
def new : DataViewerState :=
  { var := none
    view_mode := ViewMode.Table
    slicing := { slice_indices := [], display_dims := (0, 0), active_dim_selector := none }
    heat_cursor_row := 0
    heat_cursor_col := 0
    apply_scale_offset := true }

/-- `DataViewerState::load_variable`. -/
def load_variable (st : DataViewerState) (v : LoadedVariable) : DataViewerState :=
  { st with
    slicing := SlicingState.new v.ndim st.view_mode
    apply_scale_offset := true
    var := some v
    heat_cursor_row := 0
    heat_cursor_col := 0 }

/-- `DataViewerState::clamp_heat_cursor`. -/
def clamp_heat_cursor (st : DataViewerState) : DataViewerState :=
  match st.var with
  | some v =>
    if 2 ≤ v.ndim then
      let rows := v.shape.getD st.slicing.display_dims.1 0
      let cols := v.shape.getD st.slicing.display_dims.2 0
      { st with
        heat_cursor_row := if 0 < rows then min st.heat_cursor_row (rows - 1) else 0
        heat_cursor_col := if 0 < cols then min st.heat_cursor_col (cols - 1) else 0 }
    else st
  | none => st

/-- `DataViewerState::cycle_view_mode`: advance the mode, then
re-validate only the active selector. -/
def cycle_view_mode (st : DataViewerState) : DataViewerState :=
  let st1 := { st with view_mode := st.view_mode.next }
  match st1.var with
  | some v =>
      { st1 with slicing := st1.slicing.update_active_selector v.ndim st1.view_mode }
  | none => st1

/-- `DataViewerState::next_slice`: increment clamped to
`shape[dim] - 1`, guarded by `dim < ndim` and `dim` not displayed. -/
def next_slice (st : DataViewerState) (dim : ℕ) : DataViewerState :=
  match st.var with
  | some v =>
    let is_1d := st.view_mode == ViewMode.Plot1D
    let is_display_dim :=
      if is_1d then dim == st.slicing.display_dims.1
      else dim == st.slicing.display_dims.1 || dim == st.slicing.display_dims.2
    if decide (dim < v.ndim) && !is_display_dim then
      let maxIdx := v.shape.getD dim 0 - 1
      { st with slicing := { st.slicing with
          slice_indices := st.slicing.slice_indices.set dim
            (min (st.slicing.slice_indices.getD dim 0 + 1) maxIdx) } }
    else st
  | none => st

/-- `DataViewerState::prev_slice`: saturating decrement, guarded only by
`dim < slice_indices.len()` (no displayed-dimension check). -/
def prev_slice (st : DataViewerState) (dim : ℕ) : DataViewerState :=
  if dim < st.slicing.slice_indices.length then
    { st with slicing := { st.slicing with
        slice_indices := st.slicing.slice_indices.set dim
          (st.slicing.slice_indices.getD dim 0 - 1) } }
  else st

/-- `Iterator::position`: index of the first element satisfying `p`. -/
def listPosition (p : ℕ → Bool) : List ℕ → Option ℕ
  | [] => none
  | a :: l => if p a then some 0 else (listPosition p l).map (· + 1)

/-- The ordered list of currently non-displayed dimensions (the
`slice_dims` local of `next_dim_selector`). -/
def slice_dims (st : DataViewerState) (ndim : ℕ) : List ℕ :=
  let is_1d := st.view_mode == ViewMode.Plot1D
  (List.range ndim).filter fun i =>
    if is_1d then i != st.slicing.display_dims.1
    else i != st.slicing.display_dims.1 && i != st.slicing.display_dims.2

/-- `DataViewerState::next_dim_selector`: cycle the active selector
through the ordered list of non-displayed dimensions. -/
def next_dim_selector (st : DataViewerState) : DataViewerState :=
  match st.var with
  | some v =>
    let ndim := v.ndim
    let is_1d := st.view_mode == ViewMode.Plot1D
    let min_dims := if is_1d then 2 else 3
    if min_dims ≤ ndim then
      let sdims := st.slice_dims ndim
      if sdims.isEmpty then st
      else
        match st.slicing.active_dim_selector with
        | none =>
            { st with slicing :=
                { st.slicing with active_dim_selector := some (sdims.getD 0 0) } }
        | some current =>
          match listPosition (fun d => d == current) sdims with
          | some pos =>
              let next_pos := (pos + 1) % sdims.length
              { st with slicing :=
                  { st.slicing with active_dim_selector := some (sdims.getD next_pos 0) } }
          | none =>
              { st with slicing :=
                  { st.slicing with active_dim_selector := some (sdims.getD 0 0) } }
    else st
  | none => st

/-- `DataViewerState::rotate_display_dims`: swap the display pair and the
crosshair in lockstep, clamp the crosshair, re-validate the selector
(no-op below rank 2). -/
def rotate_display_dims (st : DataViewerState) : DataViewerState :=
  match st.var with
  | some v =>
    let ndim := v.ndim
    if 2 ≤ ndim then
      let st1 := { st with
        slicing := { st.slicing with
          display_dims := (st.slicing.display_dims.2, st.slicing.display_dims.1) }
        heat_cursor_row := st.heat_cursor_col
        heat_cursor_col := st.heat_cursor_row }
      let st2 := st1.clamp_heat_cursor
      { st2 with slicing := st2.slicing.update_active_selector ndim st2.view_mode }
    else st
  | none => st

/-- `DataViewerState::cycle_display_dim`: advance one display dimension
(wrapping), skipping a collision with the other only in 2D modes, then
clamp the crosshair and re-validate the selector. -/
def cycle_display_dim (st : DataViewerState) (which : ℕ) : DataViewerState :=
  match st.var with
  | some v =>
    let ndim := v.ndim
    if ndim == 0 then st
    else
      let is_1d := st.view_mode == ViewMode.Plot1D
      let current := if which == 0 then st.slicing.display_dims.1 else st.slicing.display_dims.2
      let next0 := (current + 1) % ndim
      let next1 :=
        if !is_1d then
          let other := if which == 0 then st.slicing.display_dims.2 else st.slicing.display_dims.1
          if next0 == other then (next0 + 1) % ndim else next0
        else next0
      let st1 := { st with slicing := { st.slicing with
        display_dims :=
          if which == 0 then (next1, st.slicing.display_dims.2)
          else (st.slicing.display_dims.1, next1) } }
      let st2 := st1.clamp_heat_cursor
      { st2 with slicing := st2.slicing.update_active_selector ndim st2.view_mode }
  | none => st

end DataViewerState

/-!
## Color maps (src/util/colormaps.rs)

`ColorPalette::color` clamps `t` into `[0,1]` and dispatches on the
palette.  Every arithmetic step of the palette functions is affine in `t`
and exact at the rational inputs the claims use, so `t` is modelled as a
rational directly; the Rust `as u8` cast (truncation toward zero,
saturating, for the non-negative in-range values produced here) is
`toU8`.
-/

/-- RGB triple, channels 0-255 (`ratatui Color::Rgb`). -/
structure Rgb where
  r : ℕ
  g : ℕ
  b : ℕ
deriving DecidableEq

/-- Rust `as u8` on a non-NaN float value: truncate toward zero and
saturate into `[0, 255]` (for the non-negative values produced by the
palette formulas truncation is `floor`). -/
def toU8 (x : ℚ) : ℕ :=
  if x < 0 then 0 else min 255 ⌊x⌋.toNat

/-- Rust `f64::clamp(self, min, max)` on finite values: `min` when below,
`max` when above, identity otherwise. -/
def rustClamp (x lo hi : ℚ) : ℚ :=
  if x < lo then lo else if hi < x then hi else x

/-- `viridis_color`: two-segment piecewise linear approximation. -/
def viridis_color (t : ℚ) : Rgb :=
  let r := if t < 1/2 then 68 + t * 2 * (33 - 68) else 33 + (t - 1/2) * 2 * (253 - 33)
  let g := if t < 1/2 then 1 + t * 2 * (104 - 1) else 104 + (t - 1/2) * 2 * (231 - 104)
  let b := if t < 1/2 then 84 + t * 2 * (109 - 84) else 109 + (t - 1/2) * 2 * (37 - 109)
  ⟨toU8 r, toU8 g, toU8 b⟩

/-- `plasma_color`: two-segment piecewise linear approximation. -/
def plasma_color (t : ℚ) : Rgb :=
  let r := if t < 1/2 then 13 + t * 2 * (180 - 13) else 180 + (t - 1/2) * 2 * (240 - 180)
  let g := if t < 1/2 then 8 + t * 2 * (54 - 8) else 54 + (t - 1/2) * 2 * (175 - 54)
  let b := if t < 1/2 then 135 + t * 2 * (121 - 135) else 121 + (t - 1/2) * 2 * (12 - 121)
  ⟨toU8 r, toU8 g, toU8 b⟩

/-- Rust `%` on floats (remainder with truncated quotient); the rainbow
hue arguments are non-negative, where truncation is `floor`. -/
def fmod (x y : ℚ) : ℚ := x - y * (x / y).floor

/-- `rainbow_color`: HSV sweep, hue 240° down to 0°. -/
def rainbow_color (t : ℚ) : Rgb :=
  let h := (1 - t) * 240
  let s : ℚ := 1
  let v : ℚ := 1
  let c := v * s
  let x := c * (1 - |fmod (h / 60) 2 - 1|)
  let m := v - c
  let rgb : ℚ × ℚ × ℚ :=
    if h < 60 then (c, x, 0)
    else if h < 120 then (x, c, 0)
    else if h < 180 then (0, c, x)
    else if h < 240 then (0, x, c)
    else if h < 300 then (x, 0, c)
    else (c, 0, x)
  ⟨toU8 ((rgb.1 + m) * 255), toU8 ((rgb.2.1 + m) * 255), toU8 ((rgb.2.2 + m) * 255)⟩

/-- `bluered_color`: blue→white below one half, white→red above. -/
def bluered_color (t : ℚ) : Rgb :=
  if t < 1/2 then
    let t2 := t * 2
    ⟨toU8 (t2 * 255), toU8 (t2 * 255), 255⟩
  else
    let t2 := (t - 1/2) * 2
    ⟨255, toU8 ((1 - t2) * 255), toU8 ((1 - t2) * 255)⟩

/-- `ColorPalette` (src/data_viewer/mod.rs). -/
inductive ColorPalette where
  | Viridis
  | Plasma
  | Rainbow
  | BlueRed
deriving DecidableEq

/-- `ColorPalette::color`: clamp `t` into `[0,1]`, then dispatch. -/
def ColorPalette.color (p : ColorPalette) (t : ℚ) : Rgb :=
  let t := rustClamp t 0 1
  match p with
  | .Viridis => viridis_color t
  | .Plasma => plasma_color t
  | .Rainbow => rainbow_color t
  | .BlueRed => bluered_color t

/-- Channelwise linear interpolation `a + s*(b - a)` (specification-side
helper used to state the linear-blend property of `bluered_color`). -/
def lerp (a b s : ℚ) : ℚ := a + s * (b - a)

/-!
## Heatmap rasterizer scale (src/data_viewer/ui.rs, lines 843-866)

The canvas offers `max_w_chars` character columns and
`max_h_pixels = height * 2` half-block pixel rows; the code computes
`scale = (max_h_pixels / rows).min(max_w_chars / cols)` — a two-term
minimum.  Extents here are positive in every use site (the code returns
early when either canvas extent is zero, and a drawn variable has
positive displayed extents), and the claims carry positivity hypotheses.
-/

/-- The scale computation of `draw_heatmap_view` in terms of the pixel
grid: `min(h_pixels / rows, w_chars / cols)` (ui.rs line 851). -/
def heatmap_scale_pix (rows cols w_chars h_pixels : ℕ) : ℚ :=
  min ((h_pixels : ℚ) / (rows : ℚ)) ((w_chars : ℚ) / (cols : ℚ))

/-- The scale for a canvas of `w_chars` character columns and `h_chars`
character rows: the code first doubles the rows
(`max_h_pixels = heatmap_area.height * 2`, line 846) and then applies the
two-term minimum of line 851. -/
def heatmap_scale (rows cols w_chars h_chars : ℕ) : ℚ :=
  heatmap_scale_pix rows cols w_chars (h_chars * 2)

/-- Modelled from the spec (§4.5 step 1), for comparison with the code:
the four-term orientation-symmetric minimum
`min(2H/R, W/C, 2H/C, W/R)`. -/
def spec_scale (rows cols w_chars h_chars : ℕ) : ℚ :=
  min (min ((2 * h_chars : ℚ) / rows) ((w_chars : ℚ) / cols))
    (min ((2 * h_chars : ℚ) / cols) ((w_chars : ℚ) / rows))

/-!
## Shared concrete inputs
-/

/-- A loaded variable of the given shape, zero-filled, identity scaling;
used as a concrete input in several counterexamples and witnesses. -/
def zeroVar (shape : List ℕ) : LoadedVariable :=
  ⟨shape, List.replicate shape.prod (F64.fin 0), F64.fin 1, F64.fin 0⟩

/-!
## Claim theorems
-/

/-- C1 counterexample.  The claim states that the heatmap scale is the
four-term orientation-symmetric minimum and hence symmetric under
transposition of the source.  The code (ui.rs line 851) computes only the
two-term minimum `min(2H/R, W/C)`: at `R = 1, C = 2, W = 4, H = 1` the
scale is `2`, but for the transposed source `R = 2, C = 1` it is `1`, and
the spec's four-term minimum at the original input is `1`, not `2`. -/
theorem c1_scale_transpose_counterexample :
    heatmap_scale 1 2 4 1 = 2 ∧ heatmap_scale 2 1 4 1 = 1 ∧
      spec_scale 1 2 4 1 = 1 ∧ heatmap_scale 1 2 4 1 ≠ heatmap_scale 2 1 4 1 := by
  refine ⟨?_, ?_, ?_, ?_⟩ <;>
    norm_num [heatmap_scale, heatmap_scale_pix, spec_scale]

/-- C1 amended.  The HeatmapRasterizer's scale factor is the two-term
minimum `min(2H/R, W/C)` fitting the current orientation; it is not
symmetric under transposing the source alone, but it is symmetric under
transposing the source and the pixel canvas together (swapping the roles
of the `W` character columns and the `2H` half-block pixel rows). -/
theorem c1_scale_two_term_min (rows cols w_chars h_chars : ℕ) :
    heatmap_scale rows cols w_chars h_chars
        = min ((2 * h_chars : ℚ) / rows) ((w_chars : ℚ) / cols) ∧
      heatmap_scale_pix rows cols w_chars h_chars
        = heatmap_scale_pix cols rows h_chars w_chars := by
  constructor
  · unfold heatmap_scale heatmap_scale_pix
    push_cast
    ring_nf
  · unfold heatmap_scale_pix
    exact min_comm _ _

/-- C9.  `color(Viridis, 0)` and `color(Viridis, 1)` are exactly the
palette's endpoint triples `(68, 1, 84)` and `(253, 231, 37)`;
`color(BlueRed, 1/2)` is pure white; and on `[0, 1/2)` / `[1/2, 1]` the
BlueRed channels are exactly the channelwise linear blend blue→white /
white→red (truncated to `u8`). -/
theorem c9_colormap_endpoints :
    ColorPalette.color .Viridis 0 = ⟨68, 1, 84⟩ ∧
      ColorPalette.color .Viridis 1 = ⟨253, 231, 37⟩ ∧
      ColorPalette.color .BlueRed (1/2) = ⟨255, 255, 255⟩ ∧
      (∀ t : ℚ, 0 ≤ t → t < 1/2 →
        ColorPalette.color .BlueRed t =
          ⟨toU8 (lerp 0 255 (2 * t)), toU8 (lerp 0 255 (2 * t)),
            toU8 (lerp 255 255 (2 * t))⟩) ∧
      (∀ t : ℚ, 1/2 ≤ t → t ≤ 1 →
        ColorPalette.color .BlueRed t =
          ⟨toU8 (lerp 255 255 (2 * t - 1)), toU8 (lerp 255 0 (2 * t - 1)),
            toU8 (lerp 255 0 (2 * t - 1))⟩) := by
  refine ⟨?_, ?_, ?_, ?_, ?_⟩
  · norm_num [ColorPalette.color, rustClamp, viridis_color, toU8, Rgb.mk.injEq]
    decide
  · norm_num [ColorPalette.color, rustClamp, viridis_color, toU8, Rgb.mk.injEq]
    decide
  · norm_num [ColorPalette.color, rustClamp, bluered_color, toU8, Rgb.mk.injEq]
  · intro t h0 h1
    have hc : rustClamp t 0 1 = t := by
      unfold rustClamp
      split_ifs with ha hb
      · linarith
      · linarith
      · rfl
    have h2 : t * 2 * 255 = lerp 0 255 (2 * t) := by unfold lerp; ring
    have h4 : lerp 255 255 (2 * t) = 255 := by unfold lerp; ring
    have h5 : toU8 (255 : ℚ) = 255 := by norm_num [toU8]
    simp only [ColorPalette.color, hc, bluered_color, if_pos h1, h2, h4, h5]
  · intro t h0 h1
    have hc : rustClamp t 0 1 = t := by
      unfold rustClamp
      split_ifs with ha hb
      · linarith
      · linarith
      · rfl
    have hnl : ¬ t < 1/2 := not_lt.mpr h0
    have h2 : (1 - (t - 1/2) * 2) * 255 = lerp 255 0 (2 * t - 1) := by unfold lerp; ring
    have h4 : lerp 255 255 (2 * t - 1) = 255 := by unfold lerp; ring
    have h5 : toU8 (255 : ℚ) = 255 := by norm_num [toU8]
    simp only [ColorPalette.color, hc, bluered_color, if_neg hnl, h2, h4, h5]

/-- C9 witness: the linear-blend clauses instantiated at `t = 1/4` and
`t = 3/4`, together with the closed endpoint clauses. -/
theorem c9_colormap_endpoints_witness :
    ColorPalette.color .BlueRed (1/4) =
        ⟨toU8 (lerp 0 255 (2 * (1/4))), toU8 (lerp 0 255 (2 * (1/4))),
          toU8 (lerp 255 255 (2 * (1/4)))⟩ ∧
      ColorPalette.color .BlueRed (3/4) =
        ⟨toU8 (lerp 255 255 (2 * (3/4) - 1)), toU8 (lerp 255 0 (2 * (3/4) - 1)),
          toU8 (lerp 255 0 (2 * (3/4) - 1))⟩ :=
  ⟨c9_colormap_endpoints.2.2.2.1 (1/4) (by norm_num) (by norm_num),
    c9_colormap_endpoints.2.2.2.2 (3/4) (by norm_num) (by norm_num)⟩

/-- C10.  `ColorPalette::color` clamps its own input: for every palette
and every rational `t` (including `t < 0` and `t > 1`) the result equals
the color of the pre-clamped value, so callers need not clamp. -/
theorem c10_color_clamps_input (p : ColorPalette) (t : ℚ) :
    p.color t = p.color (rustClamp t 0 1) := by
  have h : rustClamp (rustClamp t 0 1) 0 1 = rustClamp t 0 1 := by
    unfold rustClamp
    split_ifs <;> first | rfl | linarith
  cases p <;> simp only [ColorPalette.color, h]

/-- C3, failing input.  Loading a rank-2 variable (display pair `(0, 1)`),
switching to Plot1D, advancing the Y display dimension (which in 1D mode
skips the collision check and lands on `(1, 1)`), and then cycling into
the 2D Heatmap mode leaves `display_dims.0 = display_dims.1` — the
transition re-validates only the active selector, so the distinctness
invariant claimed to hold after every mutation is violated in a reachable
2D-mode state. -/
theorem c3_display_dims_collision :
    (((DataViewerState.new.load_variable
          (zeroVar [2, 3])).cycle_view_mode.cycle_display_dim 0).cycle_view_mode.view_mode
        = ViewMode.Heatmap) ∧
      2 ≤ (zeroVar [2, 3]).ndim ∧
      (((DataViewerState.new.load_variable
          (zeroVar [2, 3])).cycle_view_mode.cycle_display_dim 0).cycle_view_mode.slicing.display_dims.1
        = ((DataViewerState.new.load_variable
          (zeroVar [2, 3])).cycle_view_mode.cycle_display_dim 0).cycle_view_mode.slicing.display_dims.2) := by
  decide

/-- C4 counterexample.  In Table mode with `display_dims = (0, 1)` the
dimension `0` is displayed, yet `prev_slice(0)` still decrements its
stored slice index from `1` to `0`: `prev_slice` has no displayed-dimension
check, so the claimed no-op fails. -/
theorem c4_prev_slice_counterexample :
    (DataViewerState.mk (some (zeroVar [2, 3])) ViewMode.Table
          ⟨[1, 1], (0, 1), none⟩ 0 0 true).view_mode = ViewMode.Table ∧
      ((DataViewerState.mk (some (zeroVar [2, 3])) ViewMode.Table
          ⟨[1, 1], (0, 1), none⟩ 0 0 true).prev_slice 0).slicing.slice_indices = [0, 1] := by
  decide

/-- C4 amended.  For both adjustment directions an in-bounds stored index
stays within `[0, shape[dim]-1]`; `next_slice` is a no-op when `dim` is
currently displayed, but `prev_slice` performs its saturating decrement
regardless of whether `dim` is displayed (it checks only
`dim < slice_indices.len()`). -/
theorem c4_slice_adjustment (st : DataViewerState) (v : LoadedVariable) (dim : ℕ)
    (hv : st.var = some v) :
    ((if st.view_mode = ViewMode.Plot1D then dim = st.slicing.display_dims.1
      else dim = st.slicing.display_dims.1 ∨ dim = st.slicing.display_dims.2) →
        st.next_slice dim = st) ∧
    (st.slicing.slice_indices.getD dim 0 < v.shape.getD dim 0 →
      (st.next_slice dim).slicing.slice_indices.getD dim 0 < v.shape.getD dim 0) ∧
    (dim < st.slicing.slice_indices.length →
      (st.prev_slice dim).slicing.slice_indices.getD dim 0
        = st.slicing.slice_indices.getD dim 0 - 1) ∧
    (st.slicing.slice_indices.getD dim 0 < v.shape.getD dim 0 →
      (st.prev_slice dim).slicing.slice_indices.getD dim 0 < v.shape.getD dim 0) := by
  have hgetset : ∀ (l : List ℕ) (a : ℕ), dim < l.length → (l.set dim a).getD dim 0 = a := by
    intro l a h
    simp [List.getD_eq_getElem?_getD, List.getElem?_set_self, h]
  have hcases : st.next_slice dim = st ∨
      st.next_slice dim = { st with slicing := { st.slicing with
        slice_indices := st.slicing.slice_indices.set dim
          (min (st.slicing.slice_indices.getD dim 0 + 1) (v.shape.getD dim 0 - 1)) } } := by
    simp only [DataViewerState.next_slice, hv]
    split <;> split <;> first | exact Or.inr rfl | exact Or.inl rfl
  refine ⟨?_, ?_, ?_, ?_⟩
  · intro hdisp
    by_cases hm : st.view_mode = ViewMode.Plot1D
    · rw [if_pos hm] at hdisp
      simp [DataViewerState.next_slice, hv, hm, hdisp]
    · rw [if_neg hm] at hdisp
      have hbeq : (st.view_mode == ViewMode.Plot1D) = false := by
        simpa using hm
      rcases hdisp with h | h <;> simp [DataViewerState.next_slice, hv, hbeq, h]
  · intro hlt
    rcases hcases with h | h
    · rw [h]; exact hlt
    · rw [h]
      show (st.slicing.slice_indices.set dim
        (min (st.slicing.slice_indices.getD dim 0 + 1) (v.shape.getD dim 0 - 1))).getD dim 0
          < v.shape.getD dim 0
      by_cases hlen : dim < st.slicing.slice_indices.length
      · rw [hgetset _ _ hlen]
        have h1 := Nat.min_le_right (st.slicing.slice_indices.getD dim 0 + 1)
          (v.shape.getD dim 0 - 1)
        omega
      · rw [List.set_eq_of_length_le (Nat.le_of_not_lt hlen)]
        exact hlt
  · intro hlen
    simp only [DataViewerState.prev_slice, if_pos hlen]
    exact hgetset _ _ hlen
  · intro hlt
    by_cases hlen : dim < st.slicing.slice_indices.length
    · simp only [DataViewerState.prev_slice, if_pos hlen]
      show (st.slicing.slice_indices.set dim
        (st.slicing.slice_indices.getD dim 0 - 1)).getD dim 0 < v.shape.getD dim 0
      rw [hgetset _ _ hlen]
      omega
    · simp only [DataViewerState.prev_slice, if_neg hlen]
      exact hlt

/-- C4 witness: a Table-mode state with `shape = [2, 3]`,
`display_dims = (0, 1)` and `slice_indices = [1, 1]`, instantiated at the
displayed dimension `0`. -/
theorem c4_slice_adjustment_witness :
    (DataViewerState.mk (some (zeroVar [2, 3])) ViewMode.Table
        ⟨[1, 1], (0, 1), none⟩ 0 0 true).next_slice 0
      = DataViewerState.mk (some (zeroVar [2, 3])) ViewMode.Table
        ⟨[1, 1], (0, 1), none⟩ 0 0 true ∧
    ((DataViewerState.mk (some (zeroVar [2, 3])) ViewMode.Table
        ⟨[1, 1], (0, 1), none⟩ 0 0 true).prev_slice 0).slicing.slice_indices.getD 0 0 = 0 := by
  have h := c4_slice_adjustment
    (DataViewerState.mk (some (zeroVar [2, 3])) ViewMode.Table
      ⟨[1, 1], (0, 1), none⟩ 0 0 true) (zeroVar [2, 3]) 0 rfl
  exact ⟨h.1 (by decide), (h.2.2.1 (by decide)).trans (by decide)⟩

/-- C8 counterexample.  With `shape = [2, 3]` and the out-of-bounds fixed
index vector `[0, 5]`, every lookup of `get_1d_slice` along dimension `0`
fails, and the failed lookups contribute nothing: the result is empty
rather than two fallback entries, so an out-of-bounds lookup does not
always contribute a defensive fallback value to the output. -/
theorem c8_oob_lookup_counterexample :
    (zeroVar [2, 3]).get_1d_slice 0 [0, 5] false = [] ∧
      (zeroVar [2, 3]).shape.getD 0 0 = 2 := by
  decide

/-- C8 amended.  For any length-matching fixed index vector — including
ones whose entries are out of bounds for the shape — both extractors
return normally: the 2D extractor always yields a full
`shape[dim_y] × shape[dim_x]` grid in which every failed lookup
contributes the defensive `NaN` fallback, while the 1D extractor skips
failed lookups, yielding a possibly shorter output instead of fallback
entries. -/
theorem c8_projection_defensive (v : LoadedVariable) (dim dim_y dim_x : ℕ)
    (fixed : List ℕ) (ap : Bool) :
    (v.get_1d_slice dim fixed ap).length ≤ v.shape.getD dim 0 ∧
    (v.get_2d_slice dim_y dim_x fixed ap).length = v.shape.getD dim_y 0 ∧
    (∀ row ∈ v.get_2d_slice dim_y dim_x fixed ap, row.length = v.shape.getD dim_x 0) ∧
    (∀ y x, y < v.shape.getD dim_y 0 → x < v.shape.getD dim_x 0 →
      ndGet v.shape v.data ((fixed.set dim_y y).set dim_x x) = none →
      ((v.get_2d_slice dim_y dim_x fixed ap).getD y []).getD x (F64.fin 0) = F64.nan) := by
  refine ⟨?_, ?_, ?_, ?_⟩
  · calc (v.get_1d_slice dim fixed ap).length
        ≤ (List.range (v.shape.getD dim 0)).length :=
          List.length_filterMap_le _ _
      _ = v.shape.getD dim 0 := List.length_range _
  · simp [LoadedVariable.get_2d_slice]
  · intro row hrow
    simp only [LoadedVariable.get_2d_slice, List.mem_map] at hrow
    obtain ⟨y, _, hy⟩ := hrow
    simp [← hy]
  · intro y x hylt hxlt hnone
    have hy : ((v.get_2d_slice dim_y dim_x fixed ap).getD y [])
        = (List.range (v.shape.getD dim_x 0)).map fun x =>
            match ndGet v.shape v.data ((fixed.set dim_y y).set dim_x x) with
            | some raw => if ap then v.scale_value raw else raw
            | none => F64.nan := by
      have hylen : y < (v.get_2d_slice dim_y dim_x fixed ap).length := by
        simpa [LoadedVariable.get_2d_slice] using hylt
      rw [List.getD_eq_getElem _ _ hylen]
      simp [LoadedVariable.get_2d_slice]
    rw [hy]
    have hxlen : x < ((List.range (v.shape.getD dim_x 0)).map fun x =>
        match ndGet v.shape v.data ((fixed.set dim_y y).set dim_x x) with
        | some raw => if ap then v.scale_value raw else raw
        | none => F64.nan).length := by
      simpa using hxlt
    rw [List.getD_eq_getElem _ _ hxlen]
    simp [hnone]

/-- The statistics fold counts exactly the elements whose scaled value is
finite (invariant of the Welford loop, proved for every starting
accumulator). -/
lemma statsFold_count (sf ao : F64) (data : List F64) (acc : StatsAcc) :
    (data.foldl (statsStep sf ao) acc).count
      = acc.count + (data.filter fun raw => (F64.add (F64.mul raw sf) ao).isFinite).length := by
  induction data generalizing acc with
  | nil => simp
  | cons a l ih =>
    rw [List.foldl_cons, ih]
    by_cases h : (F64.add (F64.mul a sf) ao).isFinite = true
    · simp only [statsStep, h, if_pos, List.filter_cons, if_true]
      simp
      omega
    · simp only [statsStep, List.filter_cons, h]
      simp [h]

/-- C7.  The single-pass statistics are present or absent exactly by
valid count: `valid_count` equals the number of elements whose scaled
value `raw*scale_factor + add_offset` is finite; `min_max` and `mean` are
present iff at least one such element exists; `std` is present iff at
least two exist; in particular an all-non-finite buffer yields absent
min/max/mean/std and `valid_count = 0`. -/
theorem c7_statistics_presence (data : List F64) (scale_factor add_offset : F64) :
    (computeStats data scale_factor add_offset).valid_count
        = (data.filter fun raw =>
            (F64.add (F64.mul raw scale_factor) add_offset).isFinite).length ∧
      ((computeStats data scale_factor add_offset).min_max.isSome
        ↔ 0 < (computeStats data scale_factor add_offset).valid_count) ∧
      ((computeStats data scale_factor add_offset).mean.isSome
        ↔ 0 < (computeStats data scale_factor add_offset).valid_count) ∧
      ((computeStats data scale_factor add_offset).std.isSome
        ↔ 2 ≤ (computeStats data scale_factor add_offset).valid_count) ∧
      ((∀ raw ∈ data,
          (F64.add (F64.mul raw scale_factor) add_offset).isFinite = false) →
        (computeStats data scale_factor add_offset).min_max = none ∧
          (computeStats data scale_factor add_offset).mean = none ∧
          (computeStats data scale_factor add_offset).std = none ∧
          (computeStats data scale_factor add_offset).valid_count = 0) := by
  have hcount : (computeStats data scale_factor add_offset).valid_count
      = (data.filter fun raw =>
          (F64.add (F64.mul raw scale_factor) add_offset).isFinite).length := by
    simp [computeStats, statsFold_count]
  have hmm : (computeStats data scale_factor add_offset).min_max.isSome
      ↔ 0 < (computeStats data scale_factor add_offset).valid_count := by
    simp only [computeStats]
    split <;> rename_i h <;>
      simp only [Option.isSome_some, Option.isSome_none, Bool.false_eq_true, true_iff,
        false_iff] <;> omega
  have hmean : (computeStats data scale_factor add_offset).mean.isSome
      ↔ 0 < (computeStats data scale_factor add_offset).valid_count := by
    simp only [computeStats]
    split <;> rename_i h <;>
      simp only [Option.isSome_some, Option.isSome_none, Bool.false_eq_true, true_iff,
        false_iff] <;> omega
  have hstd : (computeStats data scale_factor add_offset).std.isSome
      ↔ 2 ≤ (computeStats data scale_factor add_offset).valid_count := by
    simp only [computeStats]
    split <;> rename_i h <;>
      simp only [Option.isSome_some, Option.isSome_none, Bool.false_eq_true, true_iff,
        false_iff] <;> omega
  refine ⟨hcount, hmm, hmean, hstd, ?_⟩
  intro hall
  have hfilter : (data.filter fun raw =>
      (F64.add (F64.mul raw scale_factor) add_offset).isFinite) = [] := by
    rw [List.filter_eq_nil_iff]
    intro a ha
    simp [hall a ha]
  have h0 : (computeStats data scale_factor add_offset).valid_count = 0 := by
    rw [hcount, hfilter]
    rfl
  refine ⟨?_, ?_, ?_, h0⟩
  · cases hh : (computeStats data scale_factor add_offset).min_max with
    | none => rfl
    | some p =>
        have := hmm.mp (by simp [hh])
        omega
  · cases hh : (computeStats data scale_factor add_offset).mean with
    | none => rfl
    | some m =>
        have := hmean.mp (by simp [hh])
        omega
  · cases hh : (computeStats data scale_factor add_offset).std with
    | none => rfl
    | some m =>
        have := hstd.mp (by simp [hh])
        omega

/-- C7 witness: the all-non-finite clause instantiated on the buffer
`[NaN, +inf]` with identity scaling. -/
theorem c7_statistics_presence_witness :
    (computeStats [F64.nan, F64.inf] (F64.fin 1) (F64.fin 0)).min_max = none ∧
      (computeStats [F64.nan, F64.inf] (F64.fin 1) (F64.fin 0)).mean = none ∧
      (computeStats [F64.nan, F64.inf] (F64.fin 1) (F64.fin 0)).std = none ∧
      (computeStats [F64.nan, F64.inf] (F64.fin 1) (F64.fin 0)).valid_count = 0 :=
  (c7_statistics_presence [F64.nan, F64.inf] (F64.fin 1) (F64.fin 0)).2.2.2.2
    (by decide)

/-- C8 witness: a rank-3 variable with out-of-bounds fixed vector
`[0, 0, 9]`; the 2D entry at `(0, 0)` is the NaN fallback and the 1D
output is within its length bound. -/
theorem c8_projection_defensive_witness :
    ((zeroVar [2, 2, 2]).get_1d_slice 0 [0, 0, 9] false).length
        ≤ (zeroVar [2, 2, 2]).shape.getD 0 0 ∧
      (((zeroVar [2, 2, 2]).get_2d_slice 0 1 [0, 0, 9] false).getD 0 []).getD 0 (F64.fin 0)
        = F64.nan := by
  have h := c8_projection_defensive (zeroVar [2, 2, 2]) 0 0 1 [0, 0, 9] false
  exact ⟨h.1, h.2.2.2 0 0 (by decide) (by decide) (by decide)⟩

/-- `update_active_selector` changes only the active selector, not the
display pair. -/
lemma update_active_selector_display_dims (s : SlicingState) (n : ℕ) (vm : ViewMode) :
    (s.update_active_selector n vm).display_dims = s.display_dims := by
  unfold SlicingState.update_active_selector
  dsimp only
  split <;> first | rfl | (split <;> rfl)

/-- `update_active_selector` changes only the active selector, not the
slice indices. -/
lemma update_active_selector_slice_indices (s : SlicingState) (n : ℕ) (vm : ViewMode) :
    (s.update_active_selector n vm).slice_indices = s.slice_indices := by
  unfold SlicingState.update_active_selector
  dsimp only
  split <;> first | rfl | (split <;> rfl)

/-- One application of `rotate_display_dims` on a rank-≥2 variable with an
in-bounds crosshair: the display pair and the crosshair are swapped, the
clamp is a no-op, and the variable, mode and slice indices are kept. -/
lemma rotate_display_dims_components (st : DataViewerState) (v : LoadedVariable)
    (hv : st.var = some v) (h2 : 2 ≤ v.ndim)
    (hrow : st.heat_cursor_row < v.shape.getD st.slicing.display_dims.1 0)
    (hcol : st.heat_cursor_col < v.shape.getD st.slicing.display_dims.2 0) :
    (st.rotate_display_dims).var = st.var ∧
      (st.rotate_display_dims).view_mode = st.view_mode ∧
      (st.rotate_display_dims).slicing.display_dims
        = (st.slicing.display_dims.2, st.slicing.display_dims.1) ∧
      (st.rotate_display_dims).slicing.slice_indices = st.slicing.slice_indices ∧
      (st.rotate_display_dims).heat_cursor_row = st.heat_cursor_col ∧
      (st.rotate_display_dims).heat_cursor_col = st.heat_cursor_row := by
  simp only [List.getD_eq_getElem?_getD] at hrow hcol
  have hrows0 : 0 < (v.shape[st.slicing.display_dims.2]?).getD 0 := by omega
  have hcols0 : 0 < (v.shape[st.slicing.display_dims.1]?).getD 0 := by omega
  have hmin1 : min st.heat_cursor_col ((v.shape[st.slicing.display_dims.2]?).getD 0 - 1)
      = st.heat_cursor_col := by omega
  have hmin2 : min st.heat_cursor_row ((v.shape[st.slicing.display_dims.1]?).getD 0 - 1)
      = st.heat_cursor_row := by omega
  simp [DataViewerState.rotate_display_dims, DataViewerState.clamp_heat_cursor, hv, h2,
    hrows0, hcols0, hmin1, hmin2, update_active_selector_display_dims,
    update_active_selector_slice_indices]

/-- C6.  With a rank-≥2 variable and a crosshair inside the displayed
extents, `rotate_display_dims` applied twice restores both the display
pair and the crosshair row/column; below rank 2 a single application
changes nothing at all. -/
theorem c6_rotate_display_dims_involution :
    (∀ (st : DataViewerState) (v : LoadedVariable), st.var = some v → 2 ≤ v.ndim →
      st.heat_cursor_row < v.shape.getD st.slicing.display_dims.1 0 →
      st.heat_cursor_col < v.shape.getD st.slicing.display_dims.2 0 →
      (st.rotate_display_dims.rotate_display_dims).slicing.display_dims
          = st.slicing.display_dims ∧
        st.rotate_display_dims.rotate_display_dims.heat_cursor_row = st.heat_cursor_row ∧
        st.rotate_display_dims.rotate_display_dims.heat_cursor_col = st.heat_cursor_col) ∧
    (∀ (st : DataViewerState) (v : LoadedVariable), st.var = some v → v.ndim < 2 →
      st.rotate_display_dims = st) := by
  constructor
  · intro st v hv h2 hrow hcol
    obtain ⟨ha, -, hc, -, he, hf⟩ := rotate_display_dims_components st v hv h2 hrow hcol
    have hv2 : st.rotate_display_dims.var = some v := ha.trans hv
    have hrow2 : st.rotate_display_dims.heat_cursor_row
        < v.shape.getD st.rotate_display_dims.slicing.display_dims.1 0 := by
      rw [he, hc]
      exact hcol
    have hcol2 : st.rotate_display_dims.heat_cursor_col
        < v.shape.getD st.rotate_display_dims.slicing.display_dims.2 0 := by
      rw [hf, hc]
      exact hrow
    obtain ⟨-, -, hc2, -, he2, hf2⟩ :=
      rotate_display_dims_components st.rotate_display_dims v hv2 h2 hrow2 hcol2
    refine ⟨?_, ?_, ?_⟩
    · rw [hc2, hc]
    · rw [he2, hf]
    · rw [hf2, he]
  · intro st v hv hlt
    simp only [DataViewerState.rotate_display_dims, hv]
    rw [if_neg (by omega)]

/-- C6 witness: a Heatmap-mode state with `shape = [2, 3]`, crosshair
`(1, 2)`, rotated twice; and a rank-1 state left unchanged by a single
rotation. -/
theorem c6_rotate_display_dims_involution_witness :
    (((DataViewerState.mk (some (zeroVar [2, 3])) ViewMode.Heatmap
          ⟨[0, 0], (0, 1), none⟩ 1 2 true).rotate_display_dims.rotate_display_dims).slicing.display_dims
        = (0, 1) ∧
      ((DataViewerState.mk (some (zeroVar [2, 3])) ViewMode.Heatmap
          ⟨[0, 0], (0, 1), none⟩ 1 2 true).rotate_display_dims.rotate_display_dims).heat_cursor_row
        = 1) ∧
      (DataViewerState.mk (some (zeroVar [5])) ViewMode.Table
          ⟨[0], (0, 0), none⟩ 0 0 true).rotate_display_dims
        = DataViewerState.mk (some (zeroVar [5])) ViewMode.Table
          ⟨[0], (0, 0), none⟩ 0 0 true := by
  have h1 := c6_rotate_display_dims_involution.1
    (DataViewerState.mk (some (zeroVar [2, 3])) ViewMode.Heatmap
      ⟨[0, 0], (0, 1), none⟩ 1 2 true) (zeroVar [2, 3]) rfl (by decide) (by decide) (by decide)
  have h2 := c6_rotate_display_dims_involution.2
    (DataViewerState.mk (some (zeroVar [5])) ViewMode.Table
      ⟨[0], (0, 0), none⟩ 0 0 true) (zeroVar [5]) rfl (by decide)
  exact ⟨⟨h1.1, h1.2.1⟩, h2⟩

/-- C5 counterexample.  Rank-3 variable in Plot1D mode with display
dimension `1`: the non-displayed dimensions are `[0, 2]`, and applying
`next_dim_selector` `ndim = 3` times moves the selector from `0` to `2`,
not back to `0`. -/
theorem c5_ndim_iterations_counterexample :
    ((DataViewerState.mk (some (zeroVar [2, 2, 2])) ViewMode.Plot1D
          ⟨[0, 0, 0], (1, 2), some 0⟩ 0 0
          true).next_dim_selector.next_dim_selector.next_dim_selector).slicing.active_dim_selector
        = some 2 ∧
      (zeroVar [2, 2, 2]).ndim = 3 ∧
      (DataViewerState.mk (some (zeroVar [2, 2, 2])) ViewMode.Plot1D
          ⟨[0, 0, 0], (1, 2), some 0⟩ 0 0 true).slicing.active_dim_selector = some 0 := by
  decide

/-- Overwrite the active selector (proof-side abbreviation for the record
update all branches of `next_dim_selector` perform). -/
def setActive (st : DataViewerState) (a : ℕ) : DataViewerState :=
  { st with slicing := { st.slicing with active_dim_selector := some a } }

/-- `setActive` does not change the non-displayed dimension list. -/
lemma slice_dims_setActive (st : DataViewerState) (a n : ℕ) :
    (setActive st a).slice_dims n = st.slice_dims n := rfl

/-- Overwriting the selector twice keeps only the last write. -/
lemma setActive_setActive (st : DataViewerState) (a b : ℕ) :
    setActive (setActive st a) b = setActive st b := rfl

/-- `Iterator::position` finds the index of a duplicate-free list's `i`-th
element. -/
lemma listPosition_eq (L : List ℕ) :
    ∀ i, i < L.length → L.Nodup →
      DataViewerState.listPosition (fun d => d == L.getD i 0) L = some i := by
  induction L with
  | nil =>
      intro i hi hnd
      simp at hi
  | cons a t ih =>
      intro i hi hnd
      cases i with
      | zero => simp [DataViewerState.listPosition]
      | succ j =>
          have hj : j < t.length := by simpa using hi
          have hmem : t.getD j 0 ∈ t := by
            rw [List.getD_eq_getElem _ _ hj]
            exact List.getElem_mem hj
          have hna : a ∉ t := (List.nodup_cons.mp hnd).1
          have hg : (a :: t).getD (j + 1) 0 = t.getD j 0 := rfl
          have hne : (a == t.getD j 0) = false := by
            refine beq_eq_false_iff_ne.mpr fun h => hna ?_
            rw [h]
            exact hmem
          simp only [hg, DataViewerState.listPosition, hne, Bool.false_eq_true, if_false]
          rw [ih j hj (List.nodup_cons.mp hnd).2]
          rfl

/-- Under the rank guard of `next_dim_selector` the non-displayed
dimension list is never empty. -/
lemma slice_dims_nonempty (st : DataViewerState) (v : LoadedVariable)
    (hmin : (if st.view_mode == ViewMode.Plot1D then 2 else 3) ≤ v.ndim) :
    0 < (st.slice_dims v.ndim).length := by
  by_cases h1 : (st.view_mode == ViewMode.Plot1D) = true
  · rw [if_pos h1] at hmin
    have hc : (if st.slicing.display_dims.1 = 0 then 1 else 0) ∈ st.slice_dims v.ndim := by
      refine List.mem_filter.mpr ⟨List.mem_range.mpr ?_, ?_⟩
      · split_ifs <;> omega
      · simp only [h1, if_true, bne_iff_ne]
        split_ifs with h <;> omega
    exact List.length_pos.mpr (List.ne_nil_of_mem hc)
  · rw [if_neg h1] at hmin
    obtain ⟨c, hc3, hcy, hcx⟩ : ∃ c, c < 3 ∧ c ≠ st.slicing.display_dims.1 ∧
        c ≠ st.slicing.display_dims.2 := by
      by_cases h0 : st.slicing.display_dims.1 = 0 ∨ st.slicing.display_dims.2 = 0
      · by_cases hb : st.slicing.display_dims.1 = 1 ∨ st.slicing.display_dims.2 = 1
        · rcases h0 with h0 | h0 <;> rcases hb with hb | hb <;>
            exact ⟨2, by omega, by omega, by omega⟩
        · push_neg at hb
          exact ⟨1, by omega, by omega, by omega⟩
      · push_neg at h0
        exact ⟨0, by omega, by omega, by omega⟩
    have hc : c ∈ st.slice_dims v.ndim := by
      refine List.mem_filter.mpr ⟨List.mem_range.mpr (by omega), ?_⟩
      simp only [h1, Bool.false_eq_true, if_false, Bool.and_eq_true, bne_iff_ne]
      exact ⟨hcy, hcx⟩
    exact List.length_pos.mpr (List.ne_nil_of_mem hc)

/-- One application of `next_dim_selector` from the `i`-th non-displayed
dimension advances the selector one position around the list (wrapping). -/
lemma next_dim_selector_step (st : DataViewerState) (v : LoadedVariable) (i : ℕ)
    (hv : st.var = some v)
    (hmin : (if st.view_mode == ViewMode.Plot1D then 2 else 3) ≤ v.ndim)
    (hi : i < (st.slice_dims v.ndim).length)
    (hact : st.slicing.active_dim_selector = some ((st.slice_dims v.ndim).getD i 0)) :
    st.next_dim_selector
      = setActive st
          ((st.slice_dims v.ndim).getD ((i + 1) % (st.slice_dims v.ndim).length) 0) := by
  have hnd : (st.slice_dims v.ndim).Nodup :=
    List.Nodup.filter _ (List.nodup_range _)
  have hpos := listPosition_eq (st.slice_dims v.ndim) i hi hnd
  have hne : (st.slice_dims v.ndim).isEmpty = false := by
    cases hL : st.slice_dims v.ndim with
    | nil => rw [hL] at hi; simp at hi
    | cons a t => rfl
  simp only [DataViewerState.next_dim_selector, hv, hmin, if_true, hne,
    Bool.false_eq_true, if_false, hact, hpos]
  simp only [setActive, hv]

/-- Iterating `next_dim_selector` `j` times from the `i`-th non-displayed
dimension lands on position `(i + j)` modulo the list length. -/
lemma next_dim_selector_iterate (v : LoadedVariable) :
    ∀ (j : ℕ) (st : DataViewerState) (i : ℕ), st.var = some v →
      (if st.view_mode == ViewMode.Plot1D then 2 else 3) ≤ v.ndim →
      i < (st.slice_dims v.ndim).length →
      st.slicing.active_dim_selector = some ((st.slice_dims v.ndim).getD i 0) →
      DataViewerState.next_dim_selector^[j] st
        = setActive st
            ((st.slice_dims v.ndim).getD ((i + j) % (st.slice_dims v.ndim).length) 0) := by
  intro j
  induction j with
  | zero =>
      intro st i hv hmin hi hact
      rw [Function.iterate_zero_apply, Nat.add_zero, Nat.mod_eq_of_lt hi]
      show st = setActive st ((st.slice_dims v.ndim).getD i 0)
      rw [setActive, ← hact]
  | succ j ih =>
      intro st i hv hmin hi hact
      rw [Function.iterate_succ_apply, next_dim_selector_step st v i hv hmin hi hact]
      have h2 := ih (setActive st
          ((st.slice_dims v.ndim).getD ((i + 1) % (st.slice_dims v.ndim).length) 0))
        ((i + 1) % (st.slice_dims v.ndim).length) hv hmin
        (Nat.mod_lt _ (by omega)) rfl
      rw [slice_dims_setActive] at h2
      rw [h2, setActive_setActive]
      have hidx : ((i + 1) % (st.slice_dims v.ndim).length + j)
            % (st.slice_dims v.ndim).length
          = (i + (j + 1)) % (st.slice_dims v.ndim).length := by
        rw [Nat.mod_add_mod]
        congr 1
        omega
      rw [hidx]

/-- C5 amended.  `next_dim_selector` never leaves the selector on a
currently displayed dimension when the view mode has a non-displayed one
(rank ≥ 2 in 1D mode, rank ≥ 3 in 2D modes); and applying it exactly `k`
times, where `k` is the number of currently non-displayed dimensions
(`ndim - 1` in 1D mode, `ndim - 2` in 2D modes) — not `ndim` times —
returns the original selector. -/
theorem c5_next_dim_selector_cycle :
    (∀ (st : DataViewerState) (v : LoadedVariable) (d : ℕ), st.var = some v →
      (if st.view_mode == ViewMode.Plot1D then 2 else 3) ≤ v.ndim →
      st.next_dim_selector.slicing.active_dim_selector = some d →
      d ≠ st.slicing.display_dims.1 ∧
        (st.view_mode ≠ ViewMode.Plot1D → d ≠ st.slicing.display_dims.2)) ∧
    (∀ (st : DataViewerState) (v : LoadedVariable) (i : ℕ), st.var = some v →
      (if st.view_mode == ViewMode.Plot1D then 2 else 3) ≤ v.ndim →
      i < (st.slice_dims v.ndim).length →
      st.slicing.active_dim_selector = some ((st.slice_dims v.ndim).getD i 0) →
      DataViewerState.next_dim_selector^[(st.slice_dims v.ndim).length] st = st) := by
  constructor
  · intro st v d hv hmin hres
    have hlen := slice_dims_nonempty st v hmin
    have hne : (st.slice_dims v.ndim).isEmpty = false := by
      cases hL : st.slice_dims v.ndim with
      | nil => rw [hL] at hlen; simp at hlen
      | cons a t => rfl
    have hmem : d ∈ st.slice_dims v.ndim := by
      simp only [DataViewerState.next_dim_selector, hv, hmin, if_true, hne,
        Bool.false_eq_true, if_false] at hres
      cases hact : st.slicing.active_dim_selector with
      | none =>
          simp only [hact, Option.some.injEq] at hres
          rw [← hres, List.getD_eq_getElem _ _ hlen]
          exact List.getElem_mem hlen
      | some cur =>
          simp only [hact] at hres
          cases hp : DataViewerState.listPosition (fun x => x == cur)
              (st.slice_dims v.ndim) with
          | none =>
              simp only [hp, Option.some.injEq] at hres
              rw [← hres, List.getD_eq_getElem _ _ hlen]
              exact List.getElem_mem hlen
          | some pos =>
              simp only [hp, Option.some.injEq] at hres
              have hm : (pos + 1) % (st.slice_dims v.ndim).length
                  < (st.slice_dims v.ndim).length := Nat.mod_lt _ hlen
              rw [← hres, List.getD_eq_getElem _ _ hm]
              exact List.getElem_mem hm
    have hpred := (List.mem_filter.mp (by
      simpa only [DataViewerState.slice_dims] using hmem)).2
    by_cases h1 : (st.view_mode == ViewMode.Plot1D) = true
    · rw [if_pos h1] at hpred
      refine ⟨bne_iff_ne.mp hpred, fun hvm => absurd (beq_iff_eq.mp h1) hvm⟩
    · rw [if_neg h1] at hpred
      rw [Bool.and_eq_true] at hpred
      exact ⟨bne_iff_ne.mp hpred.1, fun _ => bne_iff_ne.mp hpred.2⟩
  · intro st v i hv hmin hi hact
    rw [next_dim_selector_iterate v ((st.slice_dims v.ndim).length) st i hv hmin hi hact]
    rw [Nat.add_mod_right, Nat.mod_eq_of_lt hi]
    show setActive st ((st.slice_dims v.ndim).getD i 0) = st
    rw [setActive, ← hact]

/-- C5 witness: rank-4 Table-mode state (non-displayed dimensions
`[0, 1]`, selector on `0`): one application lands on the non-displayed
dimension `1`; two applications return to the original state. -/
theorem c5_next_dim_selector_cycle_witness :
    ((DataViewerState.mk (some (zeroVar [2, 2, 2, 2])) ViewMode.Table
        ⟨[0, 0, 0, 0], (2, 3), some 0⟩ 0 0 true).next_dim_selector.slicing.active_dim_selector
        = some 1 ∧ (1 ≠ 2 ∧ (ViewMode.Table ≠ ViewMode.Plot1D → 1 ≠ 3))) ∧
      DataViewerState.next_dim_selector^[2]
          (DataViewerState.mk (some (zeroVar [2, 2, 2, 2])) ViewMode.Table
            ⟨[0, 0, 0, 0], (2, 3), some 0⟩ 0 0 true)
        = DataViewerState.mk (some (zeroVar [2, 2, 2, 2])) ViewMode.Table
            ⟨[0, 0, 0, 0], (2, 3), some 0⟩ 0 0 true := by
  have hres : (DataViewerState.mk (some (zeroVar [2, 2, 2, 2])) ViewMode.Table
      ⟨[0, 0, 0, 0], (2, 3), some 0⟩ 0 0 true).next_dim_selector.slicing.active_dim_selector
      = some 1 := by decide
  have h1 := c5_next_dim_selector_cycle.1
    (DataViewerState.mk (some (zeroVar [2, 2, 2, 2])) ViewMode.Table
      ⟨[0, 0, 0, 0], (2, 3), some 0⟩ 0 0 true) (zeroVar [2, 2, 2, 2]) 1 rfl (by decide) hres
  have h2 := c5_next_dim_selector_cycle.2
    (DataViewerState.mk (some (zeroVar [2, 2, 2, 2])) ViewMode.Table
      ⟨[0, 0, 0, 0], (2, 3), some 0⟩ 0 0 true) (zeroVar [2, 2, 2, 2]) 0 rfl (by decide)
    (by decide) (by decide)
  exact ⟨⟨hres, h1⟩, by simpa using h2⟩

/-- A fully in-bounds multi-index has a row-major offset below the total
element count. -/
lemma flatIndex_lt_prod : ∀ (shape idx : List ℕ), idx.length = shape.length →
    (∀ d, d < shape.length → idx.getD d 0 < shape.getD d 0) →
    flatIndex shape idx < shape.prod := by
  intro shape
  induction shape with
  | nil =>
      intro idx hlen hb
      simp [flatIndex]
  | cons s ss ih =>
      intro idx hlen hb
      cases idx with
      | nil => simp at hlen
      | cons i is =>
          have h0 : i < s := by simpa using hb 0 (by simp)
          have htail : ∀ d, d < ss.length → is.getD d 0 < ss.getD d 0 := by
            intro d hd
            simpa using hb (d + 1) (by simpa using Nat.succ_lt_succ hd)
          have hf := ih is (by simpa using hlen) htail
          have hP : 0 < ss.prod := by omega
          show i * ss.prod + flatIndex ss is < (s :: ss).prod
          rw [List.prod_cons]
          calc i * ss.prod + flatIndex ss is < i * ss.prod + ss.prod := by omega
            _ = (i + 1) * ss.prod := by ring
            _ ≤ s * ss.prod := Nat.mul_le_mul_right _ h0

/-- A length-matching, elementwise in-bounds multi-index passes the
bounds check. -/
lemma idxInBounds_of_bounds : ∀ (shape idx : List ℕ), idx.length = shape.length →
    (∀ d, d < shape.length → idx.getD d 0 < shape.getD d 0) →
    idxInBounds shape idx = true := by
  intro shape
  induction shape with
  | nil =>
      intro idx hlen hb
      cases idx with
      | nil => rfl
      | cons i is => simp at hlen
  | cons s ss ih =>
      intro idx hlen hb
      cases idx with
      | nil => simp at hlen
      | cons i is =>
          have h0 : i < s := by simpa using hb 0 (by simp)
          have htail : ∀ d, d < ss.length → is.getD d 0 < ss.getD d 0 := by
            intro d hd
            simpa using hb (d + 1) (by simpa using Nat.succ_lt_succ hd)
          show (decide (i < s) && idxInBounds ss is) = true
          rw [Bool.and_eq_true]
          exact ⟨decide_eq_true h0, ih is (by simpa using hlen) htail⟩

/-- On an in-bounds index of a buffer of the full row-major size,
`ArrayD::get` returns exactly the buffer element at the row-major
offset. -/
lemma ndGet_eq_getD (shape : List ℕ) (data : List F64) (idx : List ℕ)
    (hdata : data.length = shape.prod)
    (hlen : idx.length = shape.length)
    (hb : ∀ d, d < shape.length → idx.getD d 0 < shape.getD d 0) :
    ndGet shape data idx = some (data.getD (flatIndex shape idx) F64.nan) := by
  have hflat : flatIndex shape idx < data.length := by
    rw [hdata]
    exact flatIndex_lt_prod shape idx hlen hb
  unfold ndGet
  rw [if_pos (idxInBounds_of_bounds shape idx hlen hb)]
  rw [List.get?_eq_getElem?, List.getElem?_eq_getElem hflat]
  rw [List.getD_eq_getElem _ _ hflat]

/-- C2.  For a rank-≥2 variable, distinct in-range display dimensions and
an in-bounds fixed index vector, the 2D projection has exactly
`shape[dim_y]` rows of exactly `shape[dim_x]` columns each, and entry
`[y][x]` is the stored buffer element whose multi-index has `dim_y = y`,
`dim_x = x` and every other dimension at its fixed index, transformed by
`raw*scale_factor + add_offset` exactly when the scale flag is set.  The
extractor is a pure function of the variable, so the stored buffer is
unchanged by construction. -/
theorem c2_get_2d_slice_projection (v : LoadedVariable) (dim_y dim_x : ℕ)
    (fixed : List ℕ) (apply_scale : Bool)
    (hdata : v.data.length = v.shape.prod)
    (hfix : fixed.length = v.ndim)
    (hyd : dim_y < v.ndim) (hxd : dim_x < v.ndim) (hne : dim_y ≠ dim_x)
    (hb : ∀ d, d < v.ndim → fixed.getD d 0 < v.shape.getD d 0) :
    (v.get_2d_slice dim_y dim_x fixed apply_scale).length = v.shape.getD dim_y 0 ∧
      (∀ row ∈ v.get_2d_slice dim_y dim_x fixed apply_scale,
        row.length = v.shape.getD dim_x 0) ∧
      (∀ y x, y < v.shape.getD dim_y 0 → x < v.shape.getD dim_x 0 →
        ((v.get_2d_slice dim_y dim_x fixed apply_scale).getD y []).getD x F64.nan
          = (if apply_scale then
              v.scale_value (v.data.getD
                (flatIndex v.shape ((fixed.set dim_y y).set dim_x x)) F64.nan)
            else v.data.getD
              (flatIndex v.shape ((fixed.set dim_y y).set dim_x x)) F64.nan)) := by
  refine ⟨by simp [LoadedVariable.get_2d_slice], ?_, ?_⟩
  · intro row hrow
    simp only [LoadedVariable.get_2d_slice, List.mem_map] at hrow
    obtain ⟨y, _, hyrow⟩ := hrow
    simp [← hyrow]
  · intro y x hylt hxlt
    have hrow : ((v.get_2d_slice dim_y dim_x fixed apply_scale).getD y [])
        = (List.range (v.shape.getD dim_x 0)).map fun xx =>
            match ndGet v.shape v.data ((fixed.set dim_y y).set dim_x xx) with
            | some raw => if apply_scale then v.scale_value raw else raw
            | none => F64.nan := by
      have hylen : y < (v.get_2d_slice dim_y dim_x fixed apply_scale).length := by
        simpa [LoadedVariable.get_2d_slice] using hylt
      rw [List.getD_eq_getElem _ _ hylen]
      simp [LoadedVariable.get_2d_slice]
    rw [hrow]
    have hxlen : x < ((List.range (v.shape.getD dim_x 0)).map fun xx =>
        match ndGet v.shape v.data ((fixed.set dim_y y).set dim_x xx) with
        | some raw => if apply_scale then v.scale_value raw else raw
        | none => F64.nan).length := by
      simpa using hxlt
    rw [List.getD_eq_getElem _ _ hxlen]
    simp only [List.getElem_map, List.getElem_range]
    have hxfix : dim_x < fixed.length := by omega
    have hnd : ndGet v.shape v.data ((fixed.set dim_y y).set dim_x x)
        = some (v.data.getD
            (flatIndex v.shape ((fixed.set dim_y y).set dim_x x)) F64.nan) := by
      apply ndGet_eq_getD _ _ _ hdata
      · rw [List.length_set, List.length_set]
        exact hfix
      · intro d hd
        by_cases hdx : d = dim_x
        · subst hdx
          have hdlen : d < (fixed.set dim_y y).length := by
            rw [List.length_set]
            omega
          have hget : ((fixed.set dim_y y).set d x).getD d 0 = x := by
            rw [List.getD_eq_getElem?_getD, List.getElem?_set_self hdlen]
            rfl
          rw [hget]
          exact hxlt
        · by_cases hdy : d = dim_y
          · subst hdy
            have hdlen : d < fixed.length := by omega
            have hget : ((fixed.set d y).set dim_x x).getD d 0 = y := by
              rw [List.getD_eq_getElem?_getD,
                List.getElem?_set_ne (fun h => hdx h.symm),
                List.getElem?_set_self hdlen]
              rfl
            rw [hget]
            exact hylt
          · have hget : ((fixed.set dim_y y).set dim_x x).getD d 0 = fixed.getD d 0 := by
              rw [List.getD_eq_getElem?_getD,
                List.getElem?_set_ne (fun h => hdx h.symm),
                List.getElem?_set_ne (fun h => hdy h.symm),
                ← List.getD_eq_getElem?_getD]
            rw [hget]
            exact hb d hd
    rw [hnd]

/-- A concrete 2×3 variable with distinguishable raw values
`10, …, 15`, `scale_factor = 2`, `add_offset = 1` (used by the concrete
projection witness). -/
def exVar23 : LoadedVariable :=
  ⟨[2, 3], [F64.fin 10, F64.fin 11, F64.fin 12, F64.fin 13, F64.fin 14, F64.fin 15],
    F64.fin 2, F64.fin 1⟩

/-- C2 witness: the scaled projection of `exVar23` over display pair
`(0, 1)` has 2 rows of 3 columns, and entry `(1, 2)` is
`15 * 2 + 1 = 31`. -/
theorem c2_get_2d_slice_projection_witness :
    (exVar23.get_2d_slice 0 1 [0, 0] true).length = 2 ∧
      ((exVar23.get_2d_slice 0 1 [0, 0] true).getD 1 []).getD 2 F64.nan = F64.fin 31 := by
  have h := c2_get_2d_slice_projection exVar23 0 1 [0, 0] true (by decide) (by decide)
    (by decide) (by decide) (by decide) (by decide)
  refine ⟨h.1, ?_⟩
  rw [h.2.2 1 2 (by decide) (by decide)]
  have hflat : flatIndex exVar23.shape (([0, 0].set 0 1).set 1 2) = 5 := by decide
  rw [if_pos rfl, hflat]
  norm_num [exVar23, LoadedVariable.scale_value, F64.mul, F64.add, F64.fin.injEq]
